import Mathlib

/-!
Shallow embedding of `postprocess.py` (fcc-dislocation-analysis): the LAMMPS
thermo-log table parser `parse_thermo_log` and the strain/stress column
resolution performed in `main`.  The log file is modelled as its list of
lines (each line without its terminating newline); numeric cells are
modelled as exact rationals produced by a decimal/scientific-notation
grammar mirroring what `pd.to_numeric` accepts on such tokens.
-/

set_option autoImplicit false

/-- Whitespace test used for `str.strip()` and the `\s` regex class. -/
def isSpace (c : Char) : Bool := c.isWhitespace

/-- Word character for the regex `\b` boundary: `[A-Za-z0-9_]`. -/
def isWordChar (c : Char) : Bool := c.isAlphanum || c == '_'

/-- Python `str.strip()`: remove leading and trailing whitespace. -/
def strip (s : String) : String :=
  ⟨((s.data.dropWhile isSpace).reverse.dropWhile isSpace).reverse⟩

/-- One step of whitespace splitting (fold from the right): a space starts a
fresh group, a non-space extends the current group. -/
def splitWSAux (c : Char) (acc : List (List Char)) : List (List Char) :=
  if isSpace c then [] :: acc
  else
    match acc with
    | [] => [[c]]
    | g :: gs => (c :: g) :: gs

/-- Python `re.split(r'\s+', s)` on an already stripped string: the list of
maximal whitespace-free token groups, in order. -/
def splitWS (s : String) : List String :=
  ((s.data.foldr splitWSAux []).filter (fun g => !g.isEmpty)).map (fun g => ⟨g⟩)

/-- Substring test on character lists (needle occurs contiguously in the
haystack). -/
def containsSub (needle : List Char) : List Char → Bool
  | [] => needle.isEmpty
  | c :: rest => needle.isPrefixOf (c :: rest) || containsSub needle rest

/-- Case-insensitive substring search: `re.search(pat, s, re.IGNORECASE)` for
an all-lowercase literal pattern. -/
def containsCI (s : String) (pat : String) : Bool :=
  containsSub pat.data (s.data.map Char.toLower)

/-- The regex `^Step\b`: the four characters `Step` at the very start of the
line, followed by a non-word character or the end of the line. -/
def stepTokenAt : List Char → Bool
  | c1 :: c2 :: c3 :: c4 :: rest =>
    c1 == 'S' && c2 == 't' && c3 == 'e' && c4 == 'p' &&
      (match rest with
       | [] => true
       | c :: _ => !isWordChar c)
  | _ => false

/-- Header-candidate test of `parse_thermo_log` (line 28 of the source):
`re.search(r'^Step\b', ln) and re.search(r'v_strain', ln, re.IGNORECASE)`. -/
def isHeaderLine (ln : String) : Bool :=
  stepTokenAt ln.data && containsCI ln "v_strain"

/-- Modelled from the spec: the header rule as section 4.1 words it, with
leading whitespace ignored before the `Step` token (the `^\s*Step` variant
mentioned in section 9, which is not the rule of `src/postprocess.py`). -/
def isHeaderLineSpec (ln : String) : Bool :=
  stepTokenAt (ln.data.dropWhile isSpace) && containsCI ln "v_strain"

/-- The regex `re.match(r'^\s*[-+]?\d', ln)`: after optional leading
whitespace, an optional sign immediately followed by a digit. -/
def looksNumeric (ln : String) : Bool :=
  match ln.data.dropWhile isSpace with
  | [] => false
  | c :: rest =>
    if c == '-' || c == '+' then
      match rest with
      | [] => false
      | d :: _ => d.isDigit
    else c.isDigit

/-- Value of a digit string, most significant digit first. -/
def digitsToNat (l : List Char) : Nat :=
  l.foldl (fun n c => n * 10 + (c.toNat - '0'.toNat)) 0

/-- Strip an optional leading sign; `true` means negative. -/
def splitSign : List Char → Bool × List Char
  | '-' :: rest => (true, rest)
  | '+' :: rest => (false, rest)
  | l => (false, l)

/-- Exponent marker of scientific notation. -/
def isExpChar (c : Char) : Bool := c == 'e' || c == 'E'

/-- Numeric conversion of one token, as `pd.to_numeric` performs per cell:
optional sign, decimal mantissa (digits, optionally with a fractional part,
at least one digit overall), optional `e`/`E` exponent.  The value is kept
exact as a rational. -/
def parseNum (tok : String) : Option Rat :=
  let (neg, body) := splitSign tok.data
  let mant := body.takeWhile (fun c => !isExpChar c)
  let expPart := body.dropWhile (fun c => !isExpChar c)
  let ip := mant.takeWhile Char.isDigit
  let fracOk : Option (List Char) :=
    match mant.dropWhile Char.isDigit with
    | [] => if ip.isEmpty then none else some []
    | '.' :: frac =>
      if frac.all Char.isDigit && (!ip.isEmpty || !frac.isEmpty) then some frac
      else none
    | _ => none
  match fracOk with
  | none => none
  | some frac =>
    let eopt : Option (Bool × Nat) :=
      match expPart with
      | [] => some (false, 0)
      | _ :: erest =>
        let (eneg, ed) := splitSign erest
        if !ed.isEmpty && ed.all Char.isDigit then some (eneg, digitsToNat ed)
        else none
    match eopt with
    | none => none
    | some (eneg, e) =>
      let mag := digitsToNat (ip ++ frac)
      let num : Int := (if neg then -(mag : Int) else (mag : Int)) *
        (if eneg then 1 else (10 : Int) ^ e)
      let den : Nat := 10 ^ (frac.length + (if eneg then e else 0))
      some (mkRat num den)

/-- Parse-time failures of `parse_thermo_log` (spec section 7 taxonomy). -/
inductive ParseError
  | headerNotFound
  | nonNumericCell
deriving DecidableEq

/-- Resolve-time failures of the column detection in `main`. -/
inductive ResolutionError
  | strainColumnMissing
  | stressColumnMissing
deriving DecidableEq

/-- The numeric table produced by `parse_thermo_log` (the DataFrame). -/
structure ThermoTable where
  colnames : List String
  rows : List (List Rat)
deriving DecidableEq

/-- The resolved (strain, stress) series pair extracted in `main`. -/
structure SeriesPair where
  strain : List Rat
  stress : List Rat
deriving DecidableEq

/-- Numeric conversion of one collected row of tokens; `none` as soon as any
token fails to convert. -/
def convRow : List String → Option (List Rat)
  | [] => some []
  | tok :: toks =>
    match parseNum tok, convRow toks with
    | some v, some vs => some (v :: vs)
    | _, _ => none

/-- Numeric conversion of all collected rows (the
`pd.DataFrame(...).apply(pd.to_numeric)` step); `none` when any cell fails. -/
def convRows : List (List String) → Option (List (List Rat))
  | [] => some []
  | r :: rs =>
    match convRow r, convRows rs with
    | some v, some vs => some (v :: vs)
    | _, _ => none

/-- Final value of `header_idx` after the scan loop of `parse_thermo_log`
(lines 26-29): the index of the last line satisfying the header test, if
any. -/
def lastHeaderIdx : List String → Option Nat
  | [] => none
  | ln :: rest =>
    match lastHeaderIdx rest with
    | some j => some (j + 1)
    | none => if isHeaderLine ln then some 0 else none

/-- Row-collection loop of `parse_thermo_log` (lines 36-45) over the lines
after the header: stop at a blank line or a non-numeric-looking line; a
numeric-looking line with at least `ncols` tokens contributes its first
`ncols` tokens as a row, one with fewer tokens is skipped. -/
def collectRows (ncols : Nat) : List String → List (List String)
  | [] => []
  | ln :: rest =>
    if strip ln = "" then []
    else if looksNumeric ln then
      (if ncols ≤ (splitWS (strip ln)).length then
        (splitWS (strip ln)).take ncols :: collectRows ncols rest
      else collectRows ncols rest)
    else []

/-- Body of `parse_thermo_log` once the header line is chosen: tokenize the
header into column names, collect the following rows, convert every cell. -/
def parseFromHeader (header : String) (rest : List String) :
    Except ParseError ThermoTable :=
  match convRows (collectRows (splitWS (strip header)).length rest) with
  | none => .error .nonNumericCell
  | some rows => .ok ⟨splitWS (strip header), rows⟩

/-- `parse_thermo_log` (source lines 21-48) over the log's list of lines. -/
def parse_thermo_log (lines : List String) : Except ParseError ThermoTable :=
  match lastHeaderIdx lines with
  | none => .error .headerNotFound
  | some i => parseFromHeader (lines.getD i "") (lines.drop (i + 1))

/-- Index of the first column whose name equals `name` (pandas label lookup
`thermo[name]` with the spec's unique-column-name invariant). -/
def colIndex : List String → String → Nat
  | [], _ => 0
  | c :: rest, name => if c = name then 0 else colIndex rest name + 1

/-- The values of the column labelled `name`, in row order
(`thermo[name].values`). -/
def columnByName (t : ThermoTable) (name : String) : List Rat :=
  t.rows.map (fun r => r.getD (colIndex t.colnames name) 0)

/-- The values of the column at position `j`, in row order. -/
def columnAt (t : ThermoTable) (j : Nat) : List Rat :=
  t.rows.map (fun r => r.getD j 0)

/-- Stress-column candidate list of `main` (lines 109-111): columns whose
name contains `sxy` case-insensitively, and if there are none, columns whose
name contains `pxy` case-insensitively. -/
def stressCandidates (t : ThermoTable) : List String :=
  if (t.colnames.filter (fun c => containsCI c "sxy")).isEmpty then
    t.colnames.filter (fun c => containsCI c "pxy")
  else t.colnames.filter (fun c => containsCI c "sxy")

/-- Column detection of `main` (lines 104-119): the strain column is the
first whose name contains `strain` case-insensitively (error if none), the
stress column is the first stress candidate (error if none); the two series
are the values of the selected columns. -/
def resolveSeries (t : ThermoTable) : Except ResolutionError SeriesPair :=
  match t.colnames.filter (fun c => containsCI c "strain") with
  | [] => .error .strainColumnMissing
  | sname :: _ =>
    match stressCandidates t with
    | [] => .error .stressColumnMissing
    | pname :: _ => .ok ⟨columnByName t sname, columnByName t pname⟩

instance {ε α : Type} [DecidableEq ε] [DecidableEq α] : DecidableEq (Except ε α)
  | .ok x, .ok y =>
    if h : x = y then isTrue (by rw [h]) else isFalse (by simp [h])
  | .ok _, .error _ => isFalse (by simp)
  | .error _, .ok _ => isFalse (by simp)
  | .error e, .error f =>
    if h : e = f then isTrue (by rw [h]) else isFalse (by simp [h])

/-- Errors of the composed parse-then-resolve pipeline. -/
inductive PostError
  | parse (e : ParseError)
  | resolve (e : ResolutionError)
deriving DecidableEq

/-- The composed pipeline of `main`: `parse_thermo_log` followed by the
column resolution. -/
def runPipeline (lines : List String) : Except PostError SeriesPair :=
  match parse_thermo_log lines with
  | .error e => .error (.parse e)
  | .ok t =>
    match resolveSeries t with
    | .error e => .error (.resolve e)
    | .ok p => .ok p

/-- A well-formed data line for a given header arity: numeric-looking, at
least `ncols` tokens, every token numerically convertible. -/
def goodRowLine (ncols : Nat) (ln : String) : Prop :=
  looksNumeric ln = true ∧ ncols ≤ (splitWS (strip ln)).length ∧
    ∀ tok ∈ splitWS (strip ln), (parseNum tok).isSome = true

instance (ncols : Nat) (ln : String) : Decidable (goodRowLine ncols ln) := by
  unfold goodRowLine; infer_instance

/-- A line that terminates row collection: blank after stripping, or not
numeric-looking. -/
def stopLine (ln : String) : Bool :=
  strip ln == "" || !looksNumeric ln

/-- Position `j` is the leftmost column whose name contains `pat`
case-insensitively. -/
def leftmostCol (t : ThermoTable) (pat : String) (j : Nat) : Prop :=
  j < t.colnames.length ∧ containsCI (t.colnames.getD j "") pat = true ∧
    ∀ i, i < j → containsCI (t.colnames.getD i "") pat = false

/-! ### Helper lemmas -/

theorem isPrefixOf_iff_append : ∀ (n h : List Char),
    n.isPrefixOf h = true ↔ ∃ t, h = n ++ t
  | [], h => by simp [List.isPrefixOf]
  | a :: as, [] => by simp [List.isPrefixOf]
  | a :: as, b :: bs => by
    simp only [List.isPrefixOf, Bool.and_eq_true, beq_iff_eq,
      isPrefixOf_iff_append as bs, List.cons_append, List.cons.injEq]
    constructor
    · rintro ⟨rfl, t, rfl⟩; exact ⟨t, rfl, rfl⟩
    · rintro ⟨t, rfl, rfl⟩; exact ⟨rfl, t, rfl⟩

theorem containsSub_iff (n : List Char) : ∀ (h : List Char),
    containsSub n h = true ↔ ∃ p q, h = p ++ n ++ q
  | [] => by
    constructor
    · intro hc
      have hn : n = [] := List.isEmpty_iff.mp hc
      exact ⟨[], [], by simp [hn]⟩
    · rintro ⟨p, q, hpq⟩
      have := List.append_eq_nil.mp hpq.symm
      have hn := (List.append_eq_nil.mp this.1).2
      simp [containsSub, hn]
  | c :: rest => by
    rw [show containsSub n (c :: rest) =
        (n.isPrefixOf (c :: rest) || containsSub n rest) from rfl,
      Bool.or_eq_true, isPrefixOf_iff_append, containsSub_iff n rest]
    constructor
    · rintro (⟨t, ht⟩ | ⟨p, q, rfl⟩)
      · exact ⟨[], t, by simpa using ht⟩
      · exact ⟨c :: p, q, by simp⟩
    · rintro ⟨p, q, hpq⟩
      match p, hpq with
      | [], hpq => exact Or.inl ⟨q, by simpa using hpq⟩
      | p0 :: p', hpq =>
        have h2 : rest = p' ++ n ++ q := by
          simp only [List.cons_append, List.cons.injEq] at hpq
          exact hpq.2
        exact Or.inr ⟨p', q, h2⟩

theorem stepTokenAt_iff : ∀ (l : List Char),
    stepTokenAt l = true ↔
      ∃ t, l = 'S' :: 't' :: 'e' :: 'p' :: t ∧
        ∀ c t2, t = c :: t2 → isWordChar c = false
  | [] => by simp [stepTokenAt]
  | [c1] => by simp [stepTokenAt]
  | [c1, c2] => by simp [stepTokenAt]
  | [c1, c2, c3] => by simp [stepTokenAt]
  | c1 :: c2 :: c3 :: c4 :: rest => by
    cases rest with
    | nil =>
      simp [stepTokenAt, List.cons.injEq, and_assoc]
    | cons c5 rest' =>
      simp [stepTokenAt, List.cons.injEq, and_assoc]

theorem dropWhile_head_false {p : Char → Bool} {l : List Char} :
    ∀ {c t}, l.dropWhile p = c :: t → p c = false := by
  induction l with
  | nil => intro c t h; simp at h
  | cons a l ih =>
    intro c t h
    rw [List.dropWhile_cons] at h
    by_cases hp : p a = true
    · rw [if_pos hp] at h; exact ih h
    · rw [if_neg hp] at h
      cases h
      exact Bool.eq_false_iff.mpr hp

theorem strip_ne_of_looksNumeric {ln : String} (h : looksNumeric ln = true) :
    ¬ strip ln = "" := by
  intro hs
  unfold looksNumeric at h
  cases hd : ln.data.dropWhile isSpace with
  | nil => rw [hd] at h; simp at h
  | cons c rest =>
    have hc : isSpace c = false := dropWhile_head_false hd
    have hdata : ((ln.data.dropWhile isSpace).reverse.dropWhile isSpace).reverse
        = [] := congrArg String.data hs
    rw [hd, List.reverse_eq_nil_iff] at hdata
    have := List.dropWhile_eq_nil_iff.mp hdata c (by simp)
    rw [hc] at this
    cases this

theorem filter_head_leftmost (p : String → Bool) :
    ∀ (cols : List String) (name : String) (rest : List String),
      cols.filter p = name :: rest →
      ∃ j, j < cols.length ∧ cols.getD j "" = name ∧ p name = true ∧
        (∀ i, i < j → p (cols.getD i "") = false) ∧ colIndex cols name = j
  | [], name, rest, h => by simp at h
  | c :: cs, name, rest, h => by
    rw [List.filter_cons] at h
    by_cases hp : p c = true
    · rw [if_pos hp] at h
      obtain ⟨rfl, -⟩ : name = c ∧ List.filter p cs = rest := by
        injection h with h1 h2
        exact ⟨h1.symm, h2⟩
      refine ⟨0, by simp, by simp, hp, ?_, ?_⟩
      · intro i hi; cases hi
      · simp [colIndex]
    · rw [if_neg hp] at h
      obtain ⟨j, hj, hname, hpname, hleft, hidx⟩ :=
        filter_head_leftmost p cs name rest h
      have hne : c ≠ name := by
        intro hcn
        rw [hcn, hpname] at hp
        exact hp rfl
      refine ⟨j + 1, by simpa using hj, by simpa using hname, hpname, ?_, ?_⟩
      · intro i hi
        cases i with
        | zero =>
          simp only [List.getD_cons_zero]
          exact Bool.eq_false_iff.mpr hp
        | succ i' => simpa using hleft i' (Nat.lt_of_succ_lt_succ hi)
      · simp [colIndex, hne, hidx]

theorem convRow_none_of_mem {r : List String} {tok : String}
    (htok : tok ∈ r) (hnone : parseNum tok = none) : convRow r = none := by
  induction r with
  | nil => cases htok
  | cons t ts ih =>
    rcases List.mem_cons.mp htok with rfl | hmem
    · simp [convRow, hnone]
    · have := ih hmem
      rw [show convRow (t :: ts) =
          (match parseNum t, convRow ts with
           | some v, some vs => some (v :: vs)
           | _, _ => none) from rfl, this]
      cases parseNum t <;> rfl

theorem convRow_isSome (r : List String)
    (h : ∀ tok ∈ r, (parseNum tok).isSome = true) : ∃ v, convRow r = some v := by
  induction r with
  | nil => exact ⟨[], rfl⟩
  | cons t ts ih =>
    obtain ⟨vs, hvs⟩ := ih (fun x hx => h x (List.mem_cons_of_mem _ hx))
    obtain ⟨v, hv⟩ := Option.isSome_iff_exists.mp (h t (List.mem_cons_self _ _))
    exact ⟨v :: vs, by simp [convRow, hv, hvs]⟩

theorem convRows_none_of_mem {rs : List (List String)} {r : List String}
    (hr : r ∈ rs) (hnone : convRow r = none) : convRows rs = none := by
  induction rs with
  | nil => cases hr
  | cons s ss ih =>
    rcases List.mem_cons.mp hr with rfl | hmem
    · simp [convRows, hnone]
    · have := ih hmem
      rw [show convRows (s :: ss) =
          (match convRow s, convRows ss with
           | some v, some vs => some (v :: vs)
           | _, _ => none) from rfl, this]
      cases convRow s <;> rfl

theorem lastHeaderIdx_none_iff : ∀ (lines : List String),
    lastHeaderIdx lines = none ↔ ∀ ln ∈ lines, isHeaderLine ln = false
  | [] => by simp [lastHeaderIdx]
  | ln :: rest => by
    rw [show lastHeaderIdx (ln :: rest) =
        (match lastHeaderIdx rest with
         | some j => some (j + 1)
         | none => if isHeaderLine ln then some 0 else none) from rfl]
    cases h : lastHeaderIdx rest with
    | some j =>
      constructor
      · intro hc; cases hc
      · intro hall
        have : lastHeaderIdx rest = none :=
          (lastHeaderIdx_none_iff rest).mpr
            (fun l hl => hall l (List.mem_cons_of_mem _ hl))
        rw [h] at this; cases this
    | none =>
      by_cases hh : isHeaderLine ln = true
      · simp only [hh, if_pos]
        constructor
        · intro hc; cases hc
        · intro hall
          rw [hall ln (List.mem_cons_self _ _)] at hh; cases hh
      · simp only [if_neg hh]
        constructor
        · intro _ l hl
          rcases List.mem_cons.mp hl with rfl | hmem
          · exact Bool.eq_false_iff.mpr hh
          · exact (lastHeaderIdx_none_iff rest).mp h l hmem
        · intro _; trivial

theorem lastHeaderIdx_eq_some : ∀ (lines : List String) (i : Nat),
    i < lines.length → isHeaderLine (lines.getD i "") = true →
    (∀ j, j < lines.length → i < j → isHeaderLine (lines.getD j "") = false) →
    lastHeaderIdx lines = some i
  | [], i, hi, _, _ => absurd hi (by simp)
  | ln :: rest, 0, hi, hh, hafter => by
    have hnone : lastHeaderIdx rest = none := by
      rw [lastHeaderIdx_none_iff]
      intro l hl
      obtain ⟨n, hn, rfl⟩ := List.mem_iff_getElem.mp hl
      have := hafter (n + 1) (by simpa using Nat.succ_lt_succ hn) (Nat.succ_pos n)
      rwa [List.getD_cons_succ, List.getD_eq_getElem rest "" hn] at this
    rw [show lastHeaderIdx (ln :: rest) =
        (match lastHeaderIdx rest with
         | some j => some (j + 1)
         | none => if isHeaderLine ln then some 0 else none) from rfl,
      hnone]
    simpa using hh
  | ln :: rest, i + 1, hi, hh, hafter => by
    have hrest : lastHeaderIdx rest = some i :=
      lastHeaderIdx_eq_some rest i (by simpa using hi)
        (by simpa using hh)
        (fun j hj hij => by
          have := hafter (j + 1) (by simpa using Nat.succ_lt_succ hj)
            (Nat.succ_lt_succ hij)
          simpa using this)
    rw [show lastHeaderIdx (ln :: rest) =
        (match lastHeaderIdx rest with
         | some j => some (j + 1)
         | none => if isHeaderLine ln then some 0 else none) from rfl,
      hrest]

theorem parseFromHeader_ne_headerNotFound (header : String) (rest : List String) :
    parseFromHeader header rest ≠ .error .headerNotFound := by
  unfold parseFromHeader
  split <;> simp

theorem collectRows_cons_blank {ncols : Nat} {ln : String} {rest : List String}
    (h : strip ln = "") : collectRows ncols (ln :: rest) = [] := by
  simp [collectRows, h]

theorem collectRows_cons_stop {ncols : Nat} {ln : String} {rest : List String}
    (h : looksNumeric ln = false) : collectRows ncols (ln :: rest) = [] := by
  simp [collectRows, h]

theorem collectRows_cons_take {ncols : Nat} {ln : String} {rest : List String}
    (hnum : looksNumeric ln = true) (hle : ncols ≤ (splitWS (strip ln)).length) :
    collectRows ncols (ln :: rest)
      = (splitWS (strip ln)).take ncols :: collectRows ncols rest := by
  simp [collectRows, strip_ne_of_looksNumeric hnum, hnum, hle]

theorem collectRows_cons_skip {ncols : Nat} {ln : String} {rest : List String}
    (hnum : looksNumeric ln = true) (hlt : (splitWS (strip ln)).length < ncols) :
    collectRows ncols (ln :: rest) = collectRows ncols rest := by
  simp [collectRows, strip_ne_of_looksNumeric hnum, hnum, Nat.not_le.mpr hlt]

theorem collectRows_convRows_spec (ncols : Nat) :
    ∀ (rest : List String) (k : Nat),
      k ≤ rest.length →
      (∀ m, m < k → goodRowLine ncols (rest.getD m "")) →
      (k = rest.length ∨ stopLine (rest.getD k "") = true) →
      ∃ R, convRows (collectRows ncols rest) = some R ∧ R.length = k
  | [], k, hk, _, _ => by
    have hz : k = 0 := Nat.le_zero.mp hk
    subst hz
    exact ⟨[], rfl, rfl⟩
  | ln :: rest, 0, _, _, hstop => by
    have hs : stopLine ln = true := by
      rcases hstop with h | h
      · simp at h
      · simpa using h
    refine ⟨[], ?_, rfl⟩
    have hs' : strip ln = "" ∨ looksNumeric ln = false := by
      simpa [stopLine] using hs
    rcases hs' with h | h
    · rw [collectRows_cons_blank h]; rfl
    · rw [collectRows_cons_stop h]; rfl
  | ln :: rest, k + 1, hk, hgood, hstop => by
    have hg : goodRowLine ncols ln := by simpa using hgood 0 (Nat.succ_pos k)
    obtain ⟨hnum, hle, htoks⟩ := hg
    rw [collectRows_cons_take hnum hle]
    obtain ⟨R', hR', hlen⟩ := collectRows_convRows_spec ncols rest k
      (Nat.le_of_succ_le_succ hk)
      (fun m hm => by simpa using hgood (m + 1) (Nat.succ_lt_succ hm))
      (by rcases hstop with h | h
          · exact Or.inl (by simpa using h)
          · exact Or.inr (by simpa using h))
    obtain ⟨v, hv⟩ := convRow_isSome ((splitWS (strip ln)).take ncols)
      (fun tok htok => htoks tok (List.mem_of_mem_take htok))
    exact ⟨v :: R', by simp [convRows, hv, hR'], by simp [hlen]⟩

theorem resolveSeries_ok_parts {t : ThermoTable} {p : SeriesPair}
    (h : resolveSeries t = .ok p) :
    (∃ sname srest,
      t.colnames.filter (fun c => containsCI c "strain") = sname :: srest ∧
      p.strain = columnByName t sname) ∧
    (∃ pname prest, stressCandidates t = pname :: prest ∧
      p.stress = columnByName t pname) := by
  unfold resolveSeries at h
  split at h
  · simp at h
  · rename_i sname srest hfil
    split at h
    · simp at h
    · rename_i pname prest hstress
      injection h with hp2
      constructor
      · exact ⟨sname, srest, hfil, by rw [← hp2]⟩
      · exact ⟨pname, prest, hstress, by rw [← hp2]⟩

theorem resolveSeries_strainMissing_iff (t : ThermoTable) :
    resolveSeries t = .error .strainColumnMissing ↔
      ∀ c ∈ t.colnames, containsCI c "strain" = false := by
  constructor
  · intro h
    unfold resolveSeries at h
    split at h
    · rename_i hfil
      intro c hc
      exact Bool.eq_false_iff.mpr (List.filter_eq_nil_iff.mp hfil c hc)
    · rename_i sname srest hfil
      split at h
      · simp at h
      · simp at h
  · intro hall
    have hfil : t.colnames.filter (fun c => containsCI c "strain") = [] :=
      List.filter_eq_nil_iff.mpr (fun a ha => by simp [hall a ha])
    unfold resolveSeries
    rw [hfil]

theorem resolveSeries_stressMissing (t : ThermoTable)
    (hstrain : ∃ c ∈ t.colnames, containsCI c "strain" = true)
    (hsxy : ∀ c ∈ t.colnames, containsCI c "sxy" = false)
    (hpxy : ∀ c ∈ t.colnames, containsCI c "pxy" = false) :
    resolveSeries t = .error .stressColumnMissing := by
  obtain ⟨c0, hc0, hcc0⟩ := hstrain
  have hsx : t.colnames.filter (fun c => containsCI c "sxy") = [] :=
    List.filter_eq_nil_iff.mpr (fun a ha => by simp [hsxy a ha])
  have hpx : t.colnames.filter (fun c => containsCI c "pxy") = [] :=
    List.filter_eq_nil_iff.mpr (fun a ha => by simp [hpxy a ha])
  have hstress : stressCandidates t = [] := by
    unfold stressCandidates
    rw [hsx, hpx]
    simp
  unfold resolveSeries
  cases hflt : t.colnames.filter (fun c => containsCI c "strain") with
  | nil =>
    have := List.filter_eq_nil_iff.mp hflt c0 hc0
    rw [hcc0] at this
    exact absurd rfl this
  | cons s ss =>
    rw [hstress]

theorem parse_eq_parseFromHeader {lines : List String} {i : Nat}
    (hidx : lastHeaderIdx lines = some i) :
    parse_thermo_log lines
      = parseFromHeader (lines.getD i "") (lines.drop (i + 1)) := by
  unfold parse_thermo_log
  rw [hidx]

/-! ### Concrete logs used by the witnesses -/

/-- Spec section 8's worked example: one header block with two data rows. -/
def demoLog : List String :=
  ["Step Temp v_strain Pxy Sxy", "0 300 0.0 1.0 2.0", "1 301 0.01 1.5 2.5"]

/-- A restarted-run log: two header blocks, the second at index 3. -/
def restartLog : List String :=
  ["Step v_strain", "1 1", "", "Step v_strain", "2 2"]

/-- A single-block log: header, two data rows, blank line, stray line. -/
def singleBlockLog : List String :=
  ["Step v_strain", "1 2", "3 4", "", "9 9"]

/-- A log whose only data row holds a non-numeric cell. -/
def badCellLog : List String :=
  ["Step v_strain", "1 abc"]

/-! ### Claims -/

/-- C1: for every log text containing two or more qualifying header lines,
`parse_thermo_log` selects the last qualifying header line in document order
and collects data rows only from the lines following that last header; all
lines before it, including earlier headers and their rows, are ignored (the
result is computed from the selected line and its successors alone). -/
theorem parse_selects_last_header (lines : List String) (i : Nat)
    (hi : i < lines.length)
    (hhead : isHeaderLine (lines.getD i "") = true)
    (hlast : ∀ j, j < lines.length → i < j → isHeaderLine (lines.getD j "") = false)
    (_hearlier : ∃ k, k < i ∧ isHeaderLine (lines.getD k "") = true) :
    parse_thermo_log lines = parseFromHeader (lines.getD i "") (lines.drop (i + 1)) :=
  parse_eq_parseFromHeader (lastHeaderIdx_eq_some lines i hi hhead hlast)

/-- Witness for C1: on the restarted-run log the parser's result is the one
computed from the header at index 3 and the lines after it. -/
theorem parse_selects_last_header_witness :
    (3 < restartLog.length ∧ isHeaderLine (restartLog.getD 3 "") = true ∧
      (∀ j, j < restartLog.length → 3 < j → isHeaderLine (restartLog.getD j "") = false) ∧
      (∃ k, k < 3 ∧ isHeaderLine (restartLog.getD k "") = true)) ∧
    parse_thermo_log restartLog
      = parseFromHeader (restartLog.getD 3 "") (restartLog.drop 4) :=
  ⟨⟨by decide, by decide, by decide, ⟨0, by decide, by decide⟩⟩,
   parse_selects_last_header restartLog 3 (by decide) (by decide) (by decide)
     ⟨0, by decide, by decide⟩⟩

/-- C2 counterexample: the claim's whitespace-tolerant header rule disagrees
with the code on a line with leading whitespace: the spec-worded rule accepts
`" Step v_strain"` while the code's `^Step\b` test rejects it. -/
theorem header_whitespace_counterexample :
    isHeaderLineSpec " Step v_strain" = true ∧
    isHeaderLine " Step v_strain" = false := by
  exact ⟨by decide, by decide⟩

/-- C2 (amended): a line qualifies as a header candidate if and only if it
starts with the literal token `Step` at the very beginning of the line (no
leading whitespace allowed, and the next character, if any, is not a word
character) and contains the substring `v_strain` case-insensitively. -/
theorem header_candidate_rule (ln : String) :
    isHeaderLine ln = true ↔
      (∃ t, ln.data = 'S' :: 't' :: 'e' :: 'p' :: t ∧
        ∀ c t2, t = c :: t2 → isWordChar c = false) ∧
      ∃ p q, ln.data.map Char.toLower = p ++ "v_strain".data ++ q := by
  unfold isHeaderLine containsCI
  simp only [Bool.and_eq_true]
  rw [stepTokenAt_iff, containsSub_iff]

/-- Witness for C2 (amended): the rule applied to the line
`"Step v_strain"`. -/
theorem header_candidate_rule_witness :
    (∃ t, ("Step v_strain").data = 'S' :: 't' :: 'e' :: 'p' :: t ∧
      ∀ c t2, t = c :: t2 → isWordChar c = false) ∧
    ∃ p q, ("Step v_strain").data.map Char.toLower = p ++ "v_strain".data ++ q :=
  (header_candidate_rule "Step v_strain").mp (by decide)

/-- C3: for every log containing exactly one well-formed header-plus-rows
block (every following contiguous line numeric-looking with at least as many
tokens as the header, each token numeric, collection stopping at the first
blank or non-numeric-looking line), `parse_thermo_log` returns a table whose
row count equals the number `k` of contiguous numeric lines after the header
and whose column count equals the header's token count. -/
theorem single_block_table_shape (lines : List String) (i k : Nat)
    (hi : i < lines.length)
    (hhead : isHeaderLine (lines.getD i "") = true)
    (huniq : ∀ j, j < lines.length → j ≠ i → isHeaderLine (lines.getD j "") = false)
    (hk : k ≤ (lines.drop (i + 1)).length)
    (hgood : ∀ m, m < k →
      goodRowLine (splitWS (strip (lines.getD i ""))).length
        ((lines.drop (i + 1)).getD m ""))
    (hstop : k = (lines.drop (i + 1)).length ∨
      stopLine ((lines.drop (i + 1)).getD k "") = true) :
    (parse_thermo_log lines).toOption.map
        (fun t => (t.rows.length, t.colnames.length))
      = some (k, (splitWS (strip (lines.getD i ""))).length) := by
  have hidx : lastHeaderIdx lines = some i :=
    lastHeaderIdx_eq_some lines i hi hhead
      (fun j hj hij => huniq j hj (Ne.symm (Nat.ne_of_lt hij)))
  obtain ⟨R, hR, hlen⟩ := collectRows_convRows_spec
    (splitWS (strip (lines.getD i ""))).length (lines.drop (i + 1)) k hk hgood hstop
  rw [parse_eq_parseFromHeader hidx]
  unfold parseFromHeader
  rw [hR]
  simp only [Except.toOption, Option.map, hlen]

/-- Witness for C3: the single-block log has a 2-token header followed by two
numeric rows and a blank line; the parsed table is 2 by 2. -/
theorem single_block_table_shape_witness :
    (0 < singleBlockLog.length ∧ isHeaderLine (singleBlockLog.getD 0 "") = true ∧
      (∀ j, j < singleBlockLog.length → j ≠ 0 →
        isHeaderLine (singleBlockLog.getD j "") = false) ∧
      2 ≤ (singleBlockLog.drop 1).length ∧
      (∀ m, m < 2 →
        goodRowLine (splitWS (strip (singleBlockLog.getD 0 ""))).length
          ((singleBlockLog.drop 1).getD m "")) ∧
      (2 = (singleBlockLog.drop 1).length ∨
        stopLine ((singleBlockLog.drop 1).getD 2 "") = true)) ∧
    (parse_thermo_log singleBlockLog).toOption.map
        (fun t => (t.rows.length, t.colnames.length))
      = some (2, (splitWS (strip (singleBlockLog.getD 0 ""))).length) :=
  ⟨⟨by decide, by decide, by decide, by decide, by decide, by decide⟩,
   single_block_table_shape singleBlockLog 0 2 (by decide) (by decide)
     (by decide) (by decide) (by decide) (by decide)⟩

/-- C4 counterexample: on a table with neither an `sxy` nor a `pxy` column
and also no strain column, `resolveSeries` fails with `StrainColumnMissing`,
not with `StressColumnMissing` as the claim's unconditional final clause
states. -/
theorem stress_error_precedence_counterexample :
    containsCI "Step" "sxy" = false ∧ containsCI "Step" "pxy" = false ∧
    resolveSeries ⟨["Step"], []⟩ = .error .strainColumnMissing ∧
    resolveSeries ⟨["Step"], []⟩ ≠ .error .stressColumnMissing := by
  exact ⟨by decide, by decide, by decide, by decide⟩

/-- C4 (amended): whenever `resolveSeries` succeeds, the stress series is the
leftmost column containing `sxy` case-insensitively, and only when no column
contains `sxy` is it the leftmost column containing `pxy`; when a strain
column is present but neither `sxy` nor `pxy` matches, it fails with
`StressColumnMissing` (with no strain column the strain failure takes
precedence); on the spec's example table the returned strain is
`[0, 0.01]` and the returned stress is the `Sxy` column `[2, 2.5]`. -/
theorem stress_selection_rule :
    (∀ (t : ThermoTable) (p : SeriesPair), resolveSeries t = .ok p →
      (∃ j, leftmostCol t "sxy" j ∧ p.stress = columnAt t j) ∨
      ((∀ c ∈ t.colnames, containsCI c "sxy" = false) ∧
        ∃ j, leftmostCol t "pxy" j ∧ p.stress = columnAt t j)) ∧
    (∀ t : ThermoTable, (∃ c ∈ t.colnames, containsCI c "strain" = true) →
      (∀ c ∈ t.colnames, containsCI c "sxy" = false) →
      (∀ c ∈ t.colnames, containsCI c "pxy" = false) →
      resolveSeries t = .error .stressColumnMissing) ∧
    runPipeline demoLog = .ok ⟨[0, mkRat 1 100], [2, mkRat 5 2]⟩ := by
  refine ⟨?_, resolveSeries_stressMissing, by decide⟩
  intro t p hp
  obtain ⟨-, pname, prest, hstress, hpstress⟩ := resolveSeries_ok_parts hp
  unfold stressCandidates at hstress
  by_cases hsx : (t.colnames.filter (fun c => containsCI c "sxy")).isEmpty = true
  · rw [if_pos hsx] at hstress
    right
    refine ⟨?_, ?_⟩
    · intro c hc
      exact Bool.eq_false_iff.mpr
        (List.filter_eq_nil_iff.mp (List.isEmpty_iff.mp hsx) c hc)
    · obtain ⟨j, hj, hget, hpname, hleft, hidx⟩ :=
        filter_head_leftmost _ t.colnames pname prest hstress
      refine ⟨j, ⟨hj, by rw [hget]; exact hpname, hleft⟩, ?_⟩
      rw [hpstress]
      unfold columnByName columnAt
      rw [hidx]
  · rw [if_neg hsx] at hstress
    left
    obtain ⟨j, hj, hget, hpname, hleft, hidx⟩ :=
      filter_head_leftmost _ t.colnames pname prest hstress
    refine ⟨j, ⟨hj, by rw [hget]; exact hpname, hleft⟩, ?_⟩
    rw [hpstress]
    unfold columnByName columnAt
    rw [hidx]

/-- Witness for C4 (amended): a table with a strain column but no stress
candidate fails with `StressColumnMissing`. -/
theorem stress_selection_rule_witness :
    (∃ c ∈ ["Step", "v_strain"], containsCI c "strain" = true) ∧
    (∀ c ∈ ["Step", "v_strain"], containsCI c "sxy" = false) ∧
    (∀ c ∈ ["Step", "v_strain"], containsCI c "pxy" = false) ∧
    resolveSeries ⟨["Step", "v_strain"], []⟩ = .error .stressColumnMissing :=
  ⟨by decide, by decide, by decide,
   stress_selection_rule.2.1 ⟨["Step", "v_strain"], []⟩ (by decide) (by decide)
     (by decide)⟩

/-- C5: `resolveSeries` selects as strain the leftmost column whose name
contains the substring `strain` case-insensitively, and fails with
`StrainColumnMissing` if and only if no column name contains `strain`
case-insensitively. -/
theorem strain_selection_rule (t : ThermoTable) :
    (resolveSeries t = .error .strainColumnMissing ↔
      ∀ c ∈ t.colnames, containsCI c "strain" = false) ∧
    ∀ p, resolveSeries t = .ok p →
      ∃ j, leftmostCol t "strain" j ∧ p.strain = columnAt t j := by
  refine ⟨resolveSeries_strainMissing_iff t, ?_⟩
  intro p hp
  obtain ⟨⟨sname, srest, hfil, hstrain⟩, -⟩ := resolveSeries_ok_parts hp
  obtain ⟨j, hj, hget, hpname, hleft, hidx⟩ :=
    filter_head_leftmost _ t.colnames sname srest hfil
  refine ⟨j, ⟨hj, by rw [hget]; exact hpname, hleft⟩, ?_⟩
  rw [hstrain]
  unfold columnByName columnAt
  rw [hidx]

/-- Witness for C5: a table with no strain column fails with
`StrainColumnMissing`. -/
theorem strain_selection_rule_witness :
    (∀ c ∈ ["Step", "Temp"], containsCI c "strain" = false) ∧
    resolveSeries ⟨["Step", "Temp"], []⟩ = .error .strainColumnMissing :=
  ⟨by decide, (strain_selection_rule ⟨["Step", "Temp"], []⟩).1.mpr (by decide)⟩

/-- C6: for every log in which some collected data row contains a retained
token that cannot be converted to a number, `parse_thermo_log` fails with
`NonNumericCell` rather than returning a table or silently dropping the
row. -/
theorem non_numeric_cell_error (lines : List String) (i : Nat)
    (hidx : lastHeaderIdx lines = some i)
    (hbad : ∃ r ∈ collectRows (splitWS (strip (lines.getD i ""))).length
        (lines.drop (i + 1)), ∃ tok ∈ r, parseNum tok = none) :
    parse_thermo_log lines = .error .nonNumericCell := by
  obtain ⟨r, hr, tok, htok, hnone⟩ := hbad
  rw [parse_eq_parseFromHeader hidx]
  unfold parseFromHeader
  rw [convRows_none_of_mem hr (convRow_none_of_mem htok hnone)]

/-- Witness for C6: the row `"1 abc"` below a two-column header makes the
parser fail with `NonNumericCell`. -/
theorem non_numeric_cell_error_witness :
    (lastHeaderIdx badCellLog = some 0 ∧
      ∃ r ∈ collectRows (splitWS (strip (badCellLog.getD 0 ""))).length
        (badCellLog.drop 1), ∃ tok ∈ r, parseNum tok = none) ∧
    parse_thermo_log badCellLog = .error .nonNumericCell :=
  ⟨⟨by decide, by decide⟩,
   non_numeric_cell_error badCellLog 0 (by decide) (by decide)⟩

/-- C7: `parse_thermo_log` fails with `HeaderNotFound` if and only if no line
of the log qualifies as a header candidate; when it fails this way no table
is produced. -/
theorem header_not_found_iff (lines : List String) :
    parse_thermo_log lines = .error .headerNotFound ↔
      ∀ ln ∈ lines, isHeaderLine ln = false := by
  constructor
  · intro h
    rw [← lastHeaderIdx_none_iff]
    cases hidx : lastHeaderIdx lines with
    | none => rfl
    | some i =>
      unfold parse_thermo_log at h
      rw [hidx] at h
      exact absurd h (parseFromHeader_ne_headerNotFound _ _)
  · intro hall
    unfold parse_thermo_log
    rw [(lastHeaderIdx_none_iff lines).mpr hall]

/-- Witness for C7: a log with no qualifying line fails with
`HeaderNotFound`. -/
theorem header_not_found_iff_witness :
    parse_thermo_log ["no header here", "1 2"] = .error .headerNotFound :=
  (header_not_found_iff ["no header here", "1 2"]).mpr (by decide)

/-- C8: a collected data row with strictly more whitespace-split tokens than
the header's column count is truncated to exactly the header's column count
and recorded, collection continues, and the conversion step only ever sees
the retained tokens, so the extra trailing tokens raise no error. -/
theorem extra_tokens_truncated (ncols : Nat) (ln : String) (rest : List String)
    (hnum : looksNumeric ln = true)
    (hgt : ncols < (splitWS (strip ln)).length) :
    collectRows ncols (ln :: rest)
        = (splitWS (strip ln)).take ncols :: collectRows ncols rest ∧
      ((splitWS (strip ln)).take ncols).length = ncols ∧
      ((∀ tok ∈ (splitWS (strip ln)).take ncols, (parseNum tok).isSome = true) →
        ∃ v, convRow ((splitWS (strip ln)).take ncols) = some v) := by
  refine ⟨collectRows_cons_take hnum (Nat.le_of_lt hgt), ?_, ?_⟩
  · rw [List.length_take]
    exact min_eq_left (Nat.le_of_lt hgt)
  · exact fun h => convRow_isSome _ h

/-- Witness for C8: the three-token line `"1 2.5 xyz"` under a two-column
header is truncated to its first two tokens and recorded. -/
theorem extra_tokens_truncated_witness :
    (looksNumeric "1 2.5 xyz" = true ∧
      2 < (splitWS (strip "1 2.5 xyz")).length) ∧
    (collectRows 2 ["1 2.5 xyz"]
        = (splitWS (strip "1 2.5 xyz")).take 2 :: collectRows 2 [] ∧
      ((splitWS (strip "1 2.5 xyz")).take 2).length = 2 ∧
      ((∀ tok ∈ (splitWS (strip "1 2.5 xyz")).take 2, (parseNum tok).isSome = true) →
        ∃ v, convRow ((splitWS (strip "1 2.5 xyz")).take 2) = some v)) :=
  ⟨⟨by decide, by decide⟩,
   extra_tokens_truncated 2 "1 2.5 xyz" [] (by decide) (by decide)⟩

/-- C9: a line after the header whose trimmed content starts with an optional
sign followed by a digit but which splits into strictly fewer tokens than the
header has columns is silently skipped: no row is recorded for it, no error
is raised, and collection continues with the following lines. -/
theorem short_numeric_line_skipped (ncols : Nat) (ln : String) (rest : List String)
    (hnum : looksNumeric ln = true)
    (hlt : (splitWS (strip ln)).length < ncols) :
    collectRows ncols (ln :: rest) = collectRows ncols rest := by
  simp [collectRows, strip_ne_of_looksNumeric hnum, hnum, Nat.not_le.mpr hlt]

/-- Witness for C9: the two-token line `"1 2"` under a three-column header is
skipped and the following numeric line is still collected. -/
theorem short_numeric_line_skipped_witness :
    (looksNumeric "1 2" = true ∧ (splitWS (strip "1 2")).length < 3) ∧
    collectRows 3 ["1 2", "1 2 3"] = collectRows 3 ["1 2 3"] :=
  ⟨⟨by decide, by decide⟩,
   short_numeric_line_skipped 3 "1 2" ["1 2 3"] (by decide) (by decide)⟩

/-- C10: running `parse_thermo_log` followed by the column resolution twice
on the same input log text yields identical SeriesPair output both times:
the composed pipeline is a deterministic function of the input text. -/
theorem pipeline_deterministic (lines : List String)
    (r1 r2 : Except PostError SeriesPair)
    (h1 : runPipeline lines = r1) (h2 : runPipeline lines = r2) : r1 = r2 :=
  h1.symm.trans h2

/-- Witness for C10: two runs of the pipeline on the demo log agree. -/
theorem pipeline_deterministic_witness :
    runPipeline demoLog = runPipeline demoLog :=
  pipeline_deterministic demoLog (runPipeline demoLog) (runPipeline demoLog)
    rfl rfl

